import Mathlib

/-!
Verification of the job-queue subsystem of the whisper-project repository:
the queue worker (scripts/queue_worker.py) and the queue client
(scripts/queue_client.py), together with the Redis primitives they use
(RPUSH / BLPOP for the job queue, SETEX / GET / KEYS / LLEN for the
result store), shallowly embedded as pure Lean functions.

Time is modelled as a natural number of abstract time units; the Redis
result store is an association list from key to (value, expiry deadline);
the job queue is a list of payloads in queue order (head = next to be
dequeued).  A queue payload is either a JSON object that parsed into a
job-descriptor record (whose fields may individually be absent, mirroring
dictionary access in the Python) or an unparseable string, on which
json.loads raises.  The external transcription engine (subprocess.run of
transcribe.py) is a parameter: it either returns a process result
(return code, stdout, stderr) or raises, modelled as Except.
-/

namespace WhisperQueue

/-- A job descriptor as decoded from a queue entry.  Every field is
optional because the Python reads `job_data["file_path"]` and
`job_data["job_id"]` (raising KeyError when absent) and uses
`job_data.get(...)` with defaults for the rest. -/
structure JobData where
  job_id : Option String
  file_path : Option String
  output_dir : Option String
  model : Option String
  submitted_at : Option Nat
deriving DecidableEq, Repr

/-- Outcome of a completed subprocess.run of the transcription engine. -/
structure ExecResult where
  returncode : Int
  stdout : String
  stderr : String
deriving DecidableEq, Repr

/-- The external Job Executor: given file path, output directory and model
name it either returns a process result or raises (Except.error carries
the exception text). -/
abbrev Executor : Type := String → String → String → Except String ExecResult

/-- A stored job result, as serialized into the Redis value by the worker.
`output` is absent on the exception path (the Python error record has no
output key); `error` is None on success. -/
structure ResultData where
  job_id : String
  status : String
  output : Option String
  error : Option String
  timestamp : Nat
deriving DecidableEq, Repr

/-- The Redis result store: entries (key, value, expiry deadline).
SETEX conses the fresh entry at the head and drops any prior entry for
the same key, so the list is ordered most-recently-written first and
holds at most one entry per key. -/
abbrev Store : Type := List (String × ResultData × Nat)

/-- Redis SETEX key ttl value at absolute time `now`: the key expires at
`now + ttl` and any prior value for the key is overwritten. -/
def Store.setex (s : Store) (key : String) (ttl : Nat) (v : ResultData) (now : Nat) : Store :=
  (key, v, now + ttl) :: List.filter (fun e => e.1 != key) s

/-- Redis GET at absolute time `now`: returns the stored value unless the
key is absent or its expiry deadline has been reached. -/
def Store.get (s : Store) (key : String) (now : Nat) : Option ResultData :=
  match List.find? (fun e => e.1 == key) s with
  | some e => if now < e.2.2 then some e.2.1 else none
  | none => none

/-- The default output directory substituted by the worker when the
descriptor has no output_dir key. -/
def defaultOutputDir : String := "/app/output/queue-transcriptions"

/-- The Redis key under which the result of a job is stored
(the result namespace followed by the job id). -/
def resultKey (job_id : String) : String := "whisper:result:" ++ job_id

/-- The except-branch of WhisperQueueWorker.process_job: store an error
record keyed by the descriptor's job id, falling back to "unknown", with
TTL 3600, and return False. -/
def processError (job : JobData) (store : Store) (now : Nat) (msg : String) : Store × Bool :=
  let jid := job.job_id.getD "unknown"
  let rd : ResultData :=
    { job_id := jid, status := "error", output := none, error := some msg, timestamp := now }
  (Store.setex store (resultKey jid) 3600 rd now, false)

/-- WhisperQueueWorker.process_job: read file_path (KeyError when
absent), default output_dir and model, read job_id (KeyError when
absent), run the executor, classify its return code into
completed/failed, and SETEX the result record with TTL 3600; any
exception along the way lands in processError.  `envModel` is the
WHISPER_DEFAULT_MODEL environment variable. -/
def process_job (exec : Executor) (envModel : Option String) (job : JobData)
    (store : Store) (now : Nat) : Store × Bool :=
  match job.file_path with
  | none => processError job store now "KeyError: file_path"
  | some fp =>
    let odir := job.output_dir.getD defaultOutputDir
    let model := job.model.getD (envModel.getD "base")
    match job.job_id with
    | none => processError job store now "KeyError: job_id"
    | some jid =>
      match exec fp odir model with
      | Except.error e => processError job store now e
      | Except.ok r =>
        let rd : ResultData :=
          { job_id := jid
            status := if r.returncode = 0 then "completed" else "failed"
            output := some r.stdout
            error := if r.returncode = 0 then none else some r.stderr
            timestamp := now }
        (Store.setex store (resultKey jid) 3600 rd now, r.returncode = 0)

/-- A raw queue entry: the JSON string either parses to a job-descriptor
record or json.loads raises on it. -/
inductive Payload where
  | malformed (raw : String)
  | parsed (job : JobData)
deriving DecidableEq, Repr

/-- Redis RPUSH: append at the tail of the queue. -/
def rpush (q : List Payload) (x : Payload) : List Payload := q ++ [x]

/-- Redis BLPOP (with timeout): remove and return the head of the queue,
or nothing when the queue stays empty for the whole timeout. -/
def blpop (q : List Payload) : Option (Payload × List Payload) :=
  match q with
  | [] => none
  | x :: xs => some (x, xs)

/-- WhisperQueueClient.submit_job: build the descriptor (output_dir
defaulted, submitted_at the current time) and RPUSH its serialization;
returns the job id.  The UUID is a parameter of the model. -/
def submit_job (q : List Payload) (job_id file_path : String)
    (output_dir : Option String) (model : String) (now : Nat) : List Payload × String :=
  let job : JobData :=
    { job_id := some job_id
      file_path := some file_path
      output_dir := some (output_dir.getD defaultOutputDir)
      model := some model
      submitted_at := some now }
  (rpush q (Payload.parsed job), job_id)

/-- WhisperQueueClient.get_result: GET the result key and decode. -/
def get_result (s : Store) (job_id : String) (now : Nat) : Option ResultData :=
  Store.get s (resultKey job_id) now

/-- The polling loop of WhisperQueueClient.wait_for_result, `elapsed`
time units after the start `t0`: while the elapsed time is below the
timeout, look the result up and otherwise sleep 2 and retry.  `stores`
gives the state of the result store at each absolute time. -/
def wait_go (stores : Nat → Store) (job_id : String) (t0 timeout elapsed : Nat) :
    Option ResultData :=
  if _h : elapsed < timeout then
    match get_result (stores (t0 + elapsed)) job_id (t0 + elapsed) with
    | some r => some r
    | none => wait_go stores job_id t0 timeout (elapsed + 2)
  else none
termination_by timeout - elapsed
decreasing_by omega

/-- WhisperQueueClient.wait_for_result: poll every 2 time units from
`t0` until the timeout elapses; None is the timeout outcome. -/
def wait_for_result (stores : Nat → Store) (job_id : String) (t0 timeout : Nat) :
    Option ResultData :=
  wait_go stores job_id t0 timeout 0

/-- The set of keys the Redis KEYS command reports: the keys of the
unexpired entries.  Redis gives no guarantee about the order in which
KEYS enumerates them, so consumers of this model quantify over an
arbitrary permutation of this list. -/
def liveKeys (s : Store) (now : Nat) : List String :=
  List.map (fun e => e.1) (List.filter (fun e => decide (now < e.2.2)) s)

/-- WhisperQueueClient.list_queue_status: LLEN of the job queue, and for
the first 5 keys that KEYS returned — `ks`, some unspecified enumeration
of the live result keys — the (job_id, status) pair of the record GET
yields for that key. -/
def list_queue_status (q : List Payload) (s : Store) (now : Nat) (ks : List String) :
    Nat × List (String × String) :=
  (q.length,
   List.filterMap
     (fun k => (Store.get s k now).map (fun rd => (rd.job_id, rd.status)))
     (List.take 5 ks))

/-- State of the worker process: the shared job queue, the shared result
store, and the current time. -/
structure WorkerState where
  queue : List Payload
  store : Store
  now : Nat

/-- Outcome of one iteration of the worker loop body: continue looping
with a new state, or break out of the loop (KeyboardInterrupt). -/
inductive StepResult where
  | next (s : WorkerState)
  | stopped (s : WorkerState)

/-- The state carried by a step outcome. -/
def StepResult.state : StepResult → WorkerState
  | StepResult.next s => s
  | StepResult.stopped s => s

/-- One iteration of WhisperQueueWorker.run's while-True body.
`interrupt` models a KeyboardInterrupt delivered during the iteration
(break); `deqErr` models BLPOP raising (connection failure): the generic
except handler sleeps 5 and the loop retries with the queue unchanged.
An empty queue is a BLPOP timeout after 10 time units (continue waiting).
A malformed head raises in json.loads: the generic handler catches it,
sleeps 5, and the entry, already popped, is never retried and no result
is written for it.  A parsed head is handed to process_job. -/
def runStep (exec : Executor) (envModel : Option String)
    (interrupt deqErr : Bool) (s : WorkerState) : StepResult :=
  if interrupt then StepResult.stopped s
  else if deqErr then StepResult.next { s with now := s.now + 5 }
  else
    match s.queue with
    | [] => StepResult.next { s with now := s.now + 10 }
    | Payload.malformed _ :: rest =>
        StepResult.next { queue := rest, store := s.store, now := s.now + 5 }
    | Payload.parsed job :: rest =>
        StepResult.next
          { queue := rest
            store := (process_job exec envModel job s.store s.now).1
            now := s.now }

/-- The per-iteration external events of a worker run: whether a
KeyboardInterrupt arrives and whether the dequeue raises. -/
structure StepInput where
  interrupt : Bool
  deqErr : Bool
deriving DecidableEq, Repr

/-- WhisperQueueWorker.run driven by a finite schedule of external
events: iterate runStep until the schedule is exhausted or the loop
breaks; the Bool records whether the loop exited (shutdown). -/
def runLoop (exec : Executor) (envModel : Option String) :
    List StepInput → WorkerState → WorkerState × Bool
  | [], s => (s, false)
  | i :: is, s =>
    match runStep exec envModel i.interrupt i.deqErr s with
    | StepResult.stopped s' => (s', true)
    | StepResult.next s' => runLoop exec envModel is s'

/-- Repeatedly BLPOP until the queue is empty: the order in which a
worker drains the queue. -/
def drain : List Payload → List Payload
  | [] => []
  | x :: xs => x :: drain xs

/-- A status value the design allows in a stored result. -/
def legalStatus (rd : ResultData) : Prop :=
  rd.status = "completed" ∨ rd.status = "failed" ∨ rd.status = "error"

instance (rd : ResultData) : Decidable (legalStatus rd) := by
  unfold legalStatus; infer_instance

/-! Helper lemmas -/

theorem get_setex_self (s : Store) (k : String) (ttl : Nat) (v : ResultData) (t t' : Nat) :
    Store.get (Store.setex s k ttl v t) k t' = if t' < t + ttl then some v else none := by
  simp [Store.get, Store.setex, List.find?]

theorem mem_setex (s : Store) (k : String) (ttl : Nat) (v : ResultData) (t : Nat)
    (e : String × ResultData × Nat) (he : e ∈ Store.setex s k ttl v t) :
    e = (k, v, t + ttl) ∨ e ∈ s := by
  rcases List.mem_cons.mp he with h | h
  · exact Or.inl h
  · exact Or.inr (List.mem_of_mem_filter h)

theorem process_job_setex (exec : Executor) (envModel : Option String) (job : JobData)
    (store : Store) (now : Nat) :
    ∃ rd : ResultData,
      (process_job exec envModel job store now).1 =
        Store.setex store (resultKey rd.job_id) 3600 rd now ∧ legalStatus rd := by
  cases hfp : job.file_path with
  | none =>
    refine ⟨{ job_id := job.job_id.getD "unknown", status := "error", output := none,
              error := some "KeyError: file_path", timestamp := now },
            ?_, Or.inr (Or.inr rfl)⟩
    simp [process_job, processError, hfp]
  | some fp =>
    cases hid : job.job_id with
    | none =>
      refine ⟨{ job_id := "unknown", status := "error", output := none,
                error := some "KeyError: job_id", timestamp := now },
              ?_, Or.inr (Or.inr rfl)⟩
      simp [process_job, processError, hfp, hid]
    | some jid =>
      cases hex : exec fp (job.output_dir.getD defaultOutputDir)
          (job.model.getD (envModel.getD "base")) with
      | error e =>
        refine ⟨{ job_id := jid, status := "error", output := none,
                  error := some e, timestamp := now },
                ?_, Or.inr (Or.inr rfl)⟩
        simp [process_job, processError, hfp, hid, hex]
      | ok r =>
        refine ⟨{ job_id := jid
                  status := if r.returncode = 0 then "completed" else "failed"
                  output := some r.stdout
                  error := if r.returncode = 0 then none else some r.stderr
                  timestamp := now }, ?_, ?_⟩
        · simp [process_job, hfp, hid, hex]
        · by_cases h0 : r.returncode = 0 <;> simp [legalStatus, h0]

theorem process_job_store_mem (exec : Executor) (envModel : Option String) (job : JobData)
    (store : Store) (now : Nat) (e : String × ResultData × Nat)
    (he : e ∈ (process_job exec envModel job store now).1) :
    e ∈ store ∨ legalStatus e.2.1 := by
  obtain ⟨rd, heq, hst⟩ := process_job_setex exec envModel job store now
  rw [heq] at he
  rcases mem_setex _ _ _ _ _ _ he with h | h
  · right; rw [h]; exact hst
  · exact Or.inl h

theorem runStep_store_mem (exec : Executor) (envModel : Option String)
    (interrupt deqErr : Bool) (s : WorkerState) (e : String × ResultData × Nat)
    (he : e ∈ (StepResult.state (runStep exec envModel interrupt deqErr s)).store) :
    e ∈ s.store ∨ legalStatus e.2.1 := by
  unfold runStep at he
  rcases interrupt with _ | _
  · rcases deqErr with _ | _
    · rcases hq : s.queue with _ | ⟨p, rest⟩
      · rw [hq] at he; exact Or.inl he
      · rcases p with raw | job
        · rw [hq] at he; exact Or.inl he
        · rw [hq] at he
          exact process_job_store_mem exec envModel job s.store s.now e he
    · exact Or.inl he
  · exact Or.inl he

theorem process_job_of_ok (exec : Executor) (envModel : Option String) (job : JobData)
    (store : Store) (now : Nat) (fp jid : String) (r : ExecResult)
    (hfp : job.file_path = some fp) (hid : job.job_id = some jid)
    (hex : exec fp (job.output_dir.getD defaultOutputDir)
      (job.model.getD (envModel.getD "base")) = Except.ok r) :
    process_job exec envModel job store now =
      (Store.setex store (resultKey jid) 3600
        { job_id := jid
          status := if r.returncode = 0 then "completed" else "failed"
          output := some r.stdout
          error := if r.returncode = 0 then none else some r.stderr
          timestamp := now } now, decide (r.returncode = 0)) := by
  simp [process_job, hfp, hid, hex]

theorem process_job_of_error (exec : Executor) (envModel : Option String) (job : JobData)
    (store : Store) (now : Nat) (fp jid : String) (e : String)
    (hfp : job.file_path = some fp) (hid : job.job_id = some jid)
    (hex : exec fp (job.output_dir.getD defaultOutputDir)
      (job.model.getD (envModel.getD "base")) = Except.error e) :
    process_job exec envModel job store now =
      (Store.setex store (resultKey jid) 3600
        { job_id := jid, status := "error", output := none,
          error := some e, timestamp := now } now, false) := by
  simp [process_job, processError, hfp, hid, hex]

theorem process_job_of_no_file_path (exec : Executor) (envModel : Option String)
    (job : JobData) (store : Store) (now : Nat) (hfp : job.file_path = none) :
    process_job exec envModel job store now =
      (Store.setex store (resultKey (job.job_id.getD "unknown")) 3600
        { job_id := job.job_id.getD "unknown", status := "error", output := none,
          error := some "KeyError: file_path", timestamp := now } now, false) := by
  simp [process_job, processError, hfp]

theorem process_job_of_no_job_id (exec : Executor) (envModel : Option String)
    (job : JobData) (store : Store) (now : Nat) (fp : String)
    (hfp : job.file_path = some fp) (hid : job.job_id = none) :
    process_job exec envModel job store now =
      (Store.setex store (resultKey "unknown") 3600
        { job_id := "unknown", status := "error", output := none,
          error := some "KeyError: job_id", timestamp := now } now, false) := by
  simp [process_job, processError, hfp, hid]

theorem runLoop_store_mem (exec : Executor) (envModel : Option String)
    (inputs : List StepInput) (s : WorkerState) (e : String × ResultData × Nat)
    (he : e ∈ ((runLoop exec envModel inputs s).1).store) :
    e ∈ s.store ∨ legalStatus e.2.1 := by
  induction inputs generalizing s with
  | nil => exact Or.inl he
  | cons i is ih =>
    rw [runLoop] at he
    rcases hstep : runStep exec envModel i.interrupt i.deqErr s with s' | s'
    · rw [hstep] at he
      rcases ih s' he with h | h
      · have := runStep_store_mem exec envModel i.interrupt i.deqErr s e
        rw [hstep] at this
        exact this h
      · exact Or.inr h
    · rw [hstep] at he
      have := runStep_store_mem exec envModel i.interrupt i.deqErr s e
      rw [hstep] at this
      exact this he

theorem drain_eq_self (q : List Payload) : drain q = q := by
  induction q with
  | nil => rfl
  | cons x xs ih => simp [drain, ih]

theorem foldl_rpush (q : List Payload) (xs : List Payload) :
    List.foldl rpush q xs = q ++ xs := by
  induction xs generalizing q with
  | nil => simp [List.foldl]
  | cons x xs ih => simp [List.foldl, rpush, ih]

theorem filter_setex_key (s : Store) (k : String) (ttl : Nat) (v : ResultData) (t : Nat) :
    List.filter (fun e => e.1 == k) (Store.setex s k ttl v t) = [(k, v, t + ttl)] := by
  simp only [Store.setex, List.filter_cons, beq_self_eq_true, if_pos, List.filter_filter]
  have : ∀ e : String × ResultData × Nat, ((e.1 == k) && (e.1 != k)) = false := by
    intro e
    by_cases h : e.1 == k <;> simp [bne, h]
  simp [this]

theorem runStep_next (exec : Executor) (envModel : Option String)
    (deqErr : Bool) (s : WorkerState) :
    ∃ s', runStep exec envModel false deqErr s = StepResult.next s' := by
  cases deqErr with
  | true => exact ⟨{ s with now := s.now + 5 }, by simp [runStep]⟩
  | false =>
    cases hq : s.queue with
    | nil =>
      exact ⟨{ queue := s.queue, store := s.store, now := s.now + 10 },
        by simp [runStep, hq]⟩
    | cons p rest =>
      cases p with
      | malformed raw =>
        exact ⟨{ queue := rest, store := s.store, now := s.now + 5 },
          by simp [runStep, hq]⟩
      | parsed job =>
        exact ⟨{ queue := rest, store := (process_job exec envModel job s.store s.now).1,
                 now := s.now }, by simp [runStep, hq]⟩

theorem wait_go_of_none (stores : Nat → Store) (job_id : String) (t0 timeout : Nat)
    (h : ∀ e, e < timeout → get_result (stores (t0 + e)) job_id (t0 + e) = none)
    (elapsed : Nat) : wait_go stores job_id t0 timeout elapsed = none := by
  rw [wait_go]
  by_cases hc : elapsed < timeout
  · simp only [hc, dif_pos, h elapsed hc]
    exact wait_go_of_none stores job_id t0 timeout h (elapsed + 2)
  · simp [hc]
termination_by timeout - elapsed
decreasing_by omega

theorem liveKeys_cons (e : String × ResultData × Nat) (s : Store) (now : Nat) :
    liveKeys (e :: s) now =
      if now < e.2.2 then e.1 :: liveKeys s now else liveKeys s now := by
  by_cases h : now < e.2.2 <;> simp [liveKeys, List.filter_cons, h]

theorem get_some_mem (s : Store) (k : String) (now : Nat) (rd : ResultData)
    (h : Store.get s k now = some rd) :
    ∃ e, e ∈ s ∧ now < e.2.2 ∧ e.2.1 = rd := by
  unfold Store.get at h
  rcases hf : List.find? (fun e => e.1 == k) s with _ | e
  · rw [hf] at h
    simp at h
  · rw [hf] at h
    by_cases hl : now < e.2.2
    · simp only [hl, if_pos] at h
      exact ⟨e, List.mem_of_find?_eq_some hf, hl, Option.some.inj h⟩
    · simp [hl] at h

theorem get_isSome_of_mem_liveKeys (s : Store) (now : Nat) (k : String)
    (hnd : (List.map (fun e => e.1) s).Nodup) (hk : k ∈ liveKeys s now) :
    ∃ rd, Store.get s k now = some rd := by
  induction s with
  | nil => simp [liveKeys] at hk
  | cons e s' ih =>
    rw [List.map_cons, List.nodup_cons] at hnd
    obtain ⟨hne, hnd'⟩ := hnd
    rw [liveKeys_cons] at hk
    by_cases hek : e.1 = k
    · have hfind : List.find? (fun x => x.1 == k) (e :: s') = some e := by
        simp [List.find?, hek]
      by_cases hlive : now < e.2.2
      · exact ⟨e.2.1, by unfold Store.get; rw [hfind]; simp [hlive]⟩
      · exfalso
        rw [if_neg hlive] at hk
        have : k ∈ List.map (fun e => e.1) s' := by
          simp only [liveKeys, List.mem_map] at hk
          obtain ⟨x, hx, rfl⟩ := hk
          exact List.mem_map_of_mem _ (List.mem_of_mem_filter hx)
        exact hne (hek ▸ this)
    · have hbeq : (e.1 == k) = false := beq_eq_false_iff_ne.mpr hek
      have hfind : List.find? (fun x => x.1 == k) (e :: s') =
          List.find? (fun x => x.1 == k) s' := by
        simp [List.find?, hbeq]
      have hg : Store.get (e :: s') k now = Store.get s' k now := by
        unfold Store.get
        rw [hfind]
      have hk' : k ∈ liveKeys s' now := by
        by_cases hlive : now < e.2.2
        · rw [if_pos hlive] at hk
          rcases List.mem_cons.mp hk with h | h
          · exact absurd h.symm hek
          · exact h
        · rw [if_neg hlive] at hk
          exact hk
      obtain ⟨rd, hrd⟩ := ih hnd' hk'
      exact ⟨rd, hg ▸ hrd⟩

theorem length_filterMap_of_some (f : α → Option β) :
    ∀ l : List α, (∀ a ∈ l, ∃ b, f a = some b) →
      (List.filterMap f l).length = l.length
  | [], _ => rfl
  | a :: l, h => by
    obtain ⟨b, hb⟩ := h a (List.mem_cons_self a l)
    rw [List.filterMap_cons, hb]
    simp [length_filterMap_of_some f l (fun x hx => h x (List.mem_cons_of_mem a hx))]

/-! Concrete fixtures used by the witness theorems -/

/-- An executor that always succeeds with return code 0. -/
def exec0 : Executor := fun _ _ _ => Except.ok { returncode := 0, stdout := "out", stderr := "" }

/-- An executor that fails with return code 1 and a stderr diagnostic. -/
def execFail : Executor :=
  fun _ _ _ => Except.ok { returncode := 1, stdout := "", stderr := "file not found" }

/-- A well-formed descriptor with only the required fields. -/
def job0 : JobData :=
  { job_id := some "j1", file_path := some "a.wav", output_dir := none, model := none,
    submitted_at := none }

/-- A descriptor with no file_path key. -/
def jobNoFile : JobData :=
  { job_id := some "j2", file_path := none, output_dir := none, model := none,
    submitted_at := none }

/-- A completed result record. -/
def rd0 : ResultData :=
  { job_id := "j1", status := "completed", output := some "out", error := none, timestamp := 0 }

/-- A one-entry result store holding rd0, written at time 0. -/
def store0 : Store := [(resultKey "j1", rd0, 3600)]

/-- A worker state with one well-formed job queued. -/
def state0 : WorkerState := { queue := [Payload.parsed job0], store := [], now := 0 }

/-- Two worker iterations, no interrupt, the second with a failing dequeue. -/
def inputs0 : List StepInput :=
  [{ interrupt := false, deqErr := false }, { interrupt := false, deqErr := true }]

/-- A completed result record for job `j` written at time `t`. -/
def mkRd (j : String) (t : Nat) : ResultData :=
  { job_id := j, status := "completed", output := some "out", error := none, timestamp := t }

/-- A store built by six SETEX writes at times 1..6, job "jf" written
last (the most recent). -/
def store6 : Store :=
  Store.setex (Store.setex (Store.setex (Store.setex (Store.setex (Store.setex []
    (resultKey "ja") 3600 (mkRd "ja" 1) 1)
    (resultKey "jb") 3600 (mkRd "jb" 2) 2)
    (resultKey "jc") 3600 (mkRd "jc" 3) 3)
    (resultKey "jd") 3600 (mkRd "jd" 4) 4)
    (resultKey "je") 3600 (mkRd "je" 5) 5)
    (resultKey "jf") 3600 (mkRd "jf" 6) 6

/-- One order in which Redis KEYS may enumerate the live keys of store6:
oldest write first. -/
def ks6 : List String :=
  [resultKey "ja", resultKey "jb", resultKey "jc",
   resultKey "jd", resultKey "je", resultKey "jf"]

/-! Claim theorems -/

/-- C1: every job result the worker stores has status "completed" exactly
when the executor's return code is 0 and "failed" when it is non-zero; an
exception in per-job processing (missing required field, executor raise)
yields status "error"; and every result ever written by a worker run, over
any schedule of iterations, has status among completed/failed/error and
never any other value. -/
theorem process_job_status_correct (exec : Executor) (envModel : Option String)
    (job : JobData) (store : Store) (now : Nat)
    (inputs : List StepInput) (s : WorkerState) :
    (∃ rd : ResultData,
      (process_job exec envModel job store now).1 =
        Store.setex store (resultKey rd.job_id) 3600 rd now ∧
      legalStatus rd ∧
      (∀ fp jid r, job.file_path = some fp → job.job_id = some jid →
        exec fp (job.output_dir.getD defaultOutputDir)
          (job.model.getD (envModel.getD "base")) = Except.ok r →
        rd.status = if r.returncode = 0 then "completed" else "failed") ∧
      (∀ fp jid e, job.file_path = some fp → job.job_id = some jid →
        exec fp (job.output_dir.getD defaultOutputDir)
          (job.model.getD (envModel.getD "base")) = Except.error e →
        rd.status = "error") ∧
      (job.file_path = none → rd.status = "error") ∧
      (job.job_id = none → rd.status = "error")) ∧
    ((∀ e ∈ s.store, legalStatus e.2.1) →
      ∀ e ∈ ((runLoop exec envModel inputs s).1).store, legalStatus e.2.1) := by
  constructor
  · cases hfp : job.file_path with
    | none =>
      refine ⟨{ job_id := job.job_id.getD "unknown", status := "error", output := none,
                error := some "KeyError: file_path", timestamp := now }, ?_,
              Or.inr (Or.inr rfl), ?_, ?_, fun _ => rfl, fun _ => rfl⟩
      · rw [process_job_of_no_file_path exec envModel job store now hfp]
      · intro fp jid r h
        exact absurd h (by simp)
      · intro fp jid e h
        exact absurd h (by simp)
    | some fp =>
      cases hid : job.job_id with
      | none =>
        refine ⟨{ job_id := "unknown", status := "error", output := none,
                  error := some "KeyError: job_id", timestamp := now }, ?_,
                Or.inr (Or.inr rfl), ?_, ?_, ?_, fun _ => rfl⟩
        · rw [process_job_of_no_job_id exec envModel job store now fp hfp hid]
        · intro fp' jid r _ h
          exact absurd h (by simp)
        · intro fp' jid e _ h
          exact absurd h (by simp)
        · intro h; exact absurd h (by simp)
      | some jid =>
        cases hex : exec fp (job.output_dir.getD defaultOutputDir)
            (job.model.getD (envModel.getD "base")) with
        | error e =>
          refine ⟨{ job_id := jid, status := "error", output := none,
                    error := some e, timestamp := now }, ?_,
                  Or.inr (Or.inr rfl), ?_, fun _ _ _ _ _ _ => rfl, ?_, ?_⟩
          · rw [process_job_of_error exec envModel job store now fp jid e hfp hid hex]
          · intro fp' jid' r hfp' hid' hex'
            obtain rfl : fp = fp' := Option.some.inj hfp'
            obtain rfl : jid = jid' := Option.some.inj hid'
            rw [hex] at hex'; exact absurd hex' (by simp)
          · intro h; exact absurd h (by simp)
          · intro h; exact absurd h (by simp)
        | ok r =>
          refine ⟨{ job_id := jid
                    status := if r.returncode = 0 then "completed" else "failed"
                    output := some r.stdout
                    error := if r.returncode = 0 then none else some r.stderr
                    timestamp := now }, ?_, ?_, ?_, ?_, ?_, ?_⟩
          · rw [process_job_of_ok exec envModel job store now fp jid r hfp hid hex]
          · by_cases h0 : r.returncode = 0 <;> simp [legalStatus, h0]
          · intro fp' jid' r' hfp' hid' hex'
            obtain rfl : fp = fp' := Option.some.inj hfp'
            obtain rfl : jid = jid' := Option.some.inj hid'
            rw [hex] at hex'
            obtain rfl : r = r' := Except.ok.inj hex'
            rfl
          · intro fp' jid' e hfp' hid' hex'
            obtain rfl : fp = fp' := Option.some.inj hfp'
            obtain rfl : jid = jid' := Option.some.inj hid'
            rw [hex] at hex'; exact absurd hex' (by simp)
          · intro h; exact absurd h (by simp)
          · intro h; exact absurd h (by simp)
  · intro hinv e he
    rcases runLoop_store_mem exec envModel inputs s e he with h | h
    · exact hinv e h
    · exact h

/-- Witness for C1: a concrete run from an empty store (which trivially
satisfies the status invariant) keeps every stored status legal. -/
theorem process_job_status_correct_w :
    (∀ e ∈ state0.store, legalStatus e.2.1) ∧
    (∀ e ∈ ((runLoop exec0 none inputs0 state0).1).store, legalStatus e.2.1) :=
  ⟨by simp [state0],
   (process_job_status_correct exec0 none job0 [] 0 inputs0 state0).2 (by simp [state0])⟩

/-- C2: enqueue appends at the tail (RPUSH) and dequeue removes the head
(BLPOP): two submissions A then B onto an idle queue are dequeued A
strictly before B, and more generally a worker drains any sequence of
enqueues in exactly the order they were pushed. -/
theorem fifo_order (q : List Payload) (pA pB : Payload) (xs : List Payload)
    (jid fp : String) (od : Option String) (m : String) (t : Nat) :
    (submit_job q jid fp od m t).1 =
      q ++ [Payload.parsed { job_id := some jid
                             file_path := some fp
                             output_dir := some (od.getD defaultOutputDir)
                             model := some m
                             submitted_at := some t }] ∧
    rpush (rpush [] pA) pB = [pA, pB] ∧
    blpop (rpush (rpush [] pA) pB) = some (pA, [pB]) ∧
    blpop [pB] = some (pB, []) ∧
    drain (List.foldl rpush [] xs) = xs := by
  refine ⟨rfl, rfl, rfl, rfl, ?_⟩
  rw [foldl_rpush, List.nil_append, drain_eq_self]

/-- C4: process_job stores the job result with SETEX and TTL exactly
3600: the freshly written result is retrievable by GET at any time
strictly before 3600 units after the write and not retrievable at or
after that deadline. -/
theorem result_ttl (exec : Executor) (envModel : Option String) (job : JobData)
    (store : Store) (now : Nat) :
    ∃ rd : ResultData,
      (process_job exec envModel job store now).1 =
        Store.setex store (resultKey rd.job_id) 3600 rd now ∧
      ∀ t, Store.get ((process_job exec envModel job store now).1) (resultKey rd.job_id) t =
        if t < now + 3600 then some rd else none := by
  obtain ⟨rd, heq, _⟩ := process_job_setex exec envModel job store now
  refine ⟨rd, heq, fun t => ?_⟩
  rw [heq, get_setex_self]

/-- C7: result publication is last-write-wins: SETEX leaves exactly one
entry for the written key, and after two writes for the same job id the
most recent value (with its own expiry) is the one GET returns. -/
theorem result_last_write_wins (s : Store) (jid : String) (v v' : ResultData)
    (ttl ttl' t t' : Nat) :
    (List.filter (fun e => e.1 == resultKey jid)
      (Store.setex s (resultKey jid) ttl v t)).length = 1 ∧
    ∀ t'', Store.get (Store.setex (Store.setex s (resultKey jid) ttl v t)
        (resultKey jid) ttl' v' t') (resultKey jid) t'' =
      if t'' < t' + ttl' then some v' else none := by
  constructor
  · rw [filter_setex_key]
    rfl
  · intro t''
    rw [get_setex_self]

/-- C3 counterexample: a queue entry whose payload is unparseable JSON is
dequeued by the worker, but json.loads raises before process_job is ever
called, so the loop's generic exception handler merely sleeps 5 and
continues: the result store stays empty, no status=error result is
written, contradicting the claim that a parse failure synthesizes a Job
Result. -/
theorem malformed_entry_writes_no_result :
    runStep exec0 none false false
        { queue := [Payload.malformed "not json"], store := [], now := 0 } =
      StepResult.next { queue := [], store := [], now := 5 } ∧
    (StepResult.state (runStep exec0 none false false
        { queue := [Payload.malformed "not json"], store := [], now := 0 })).store = [] :=
  ⟨rfl, rfl⟩

/-- C3 (amended): a queue entry that parses as JSON but is missing a
required field yields a synthesized status=error result (job_id falling
back to "unknown" when the id itself is missing) written to the result
store, and the loop continues without retrying the entry; whereas an
entry whose payload is unparseable JSON produces no result at all: the
exception lands in the loop's generic handler, which sleeps 5 time units
and continues, the entry never being retried. -/
theorem parse_failure_behaviour (exec : Executor) (envModel : Option String)
    (raw : String) (rest : List Payload) (store : Store) (t : Nat) (job : JobData) :
    (runStep exec envModel false false
        { queue := Payload.malformed raw :: rest, store := store, now := t } =
      StepResult.next { queue := rest, store := store, now := t + 5 }) ∧
    (job.file_path = none ∨ job.job_id = none →
      ∃ rd : ResultData,
        runStep exec envModel false false
            { queue := Payload.parsed job :: rest, store := store, now := t } =
          StepResult.next
            { queue := rest
              store := Store.setex store (resultKey (job.job_id.getD "unknown")) 3600 rd t
              now := t } ∧
        rd.status = "error" ∧ rd.job_id = job.job_id.getD "unknown") := by
  refine ⟨by simp [runStep], ?_⟩
  intro h
  cases hfp : job.file_path with
  | none =>
    refine ⟨{ job_id := job.job_id.getD "unknown", status := "error", output := none,
              error := some "KeyError: file_path", timestamp := t }, ?_, rfl, rfl⟩
    simp [runStep, process_job_of_no_file_path exec envModel job store t hfp]
  | some fp =>
    cases hid : job.job_id with
    | none =>
      refine ⟨{ job_id := "unknown", status := "error", output := none,
                error := some "KeyError: job_id", timestamp := t }, ?_, rfl, rfl⟩
      simp [runStep, process_job_of_no_job_id exec envModel job store t fp hfp hid]
    | some jid =>
      rcases h with h | h
      · rw [hfp] at h; exact absurd h (by simp)
      · rw [hid] at h; exact absurd h (by simp)

/-- Witness for the amended C3: a descriptor with a job id but no
file_path yields a stored status=error result under that id. -/
theorem parse_failure_behaviour_w :
    (jobNoFile.file_path = none ∨ jobNoFile.job_id = none) ∧
    (∃ rd : ResultData,
      runStep exec0 none false false
          { queue := [Payload.parsed jobNoFile], store := [], now := 0 } =
        StepResult.next
          { queue := []
            store := Store.setex [] (resultKey (jobNoFile.job_id.getD "unknown")) 3600 rd 0
            now := 0 } ∧
      rd.status = "error" ∧ rd.job_id = jobNoFile.job_id.getD "unknown") :=
  ⟨Or.inl rfl,
   (parse_failure_behaviour exec0 none "x" [] [] 0 jobNoFile).2 (Or.inl rfl)⟩

/-- C5: wait_for_result always terminates within its timeout: with a
zero timeout it returns the timeout outcome None at once; if no result
is ever retrievable during the window it returns None rather than
raising; and a result retrievable at the first poll is returned.  Polls
happen 2 time units apart starting at t0. -/
theorem wait_respects_timeout (stores : Nat → Store) (job_id : String) (t0 timeout : Nat) :
    (timeout = 0 → wait_for_result stores job_id t0 timeout = none) ∧
    ((∀ e, e < timeout → get_result (stores (t0 + e)) job_id (t0 + e) = none) →
      wait_for_result stores job_id t0 timeout = none) ∧
    (∀ r, 0 < timeout → get_result (stores t0) job_id t0 = some r →
      wait_for_result stores job_id t0 timeout = some r) := by
  refine ⟨?_, ?_, ?_⟩
  · intro h
    subst h
    rw [wait_for_result, wait_go]
    simp
  · intro h
    exact wait_go_of_none stores job_id t0 timeout h 0
  · intro r h0 hr
    rw [wait_for_result, wait_go]
    simp only [h0, dif_pos]
    rw [show t0 + 0 = t0 from rfl] at *
    rw [hr]

/-- Witness for C5: a zero timeout and an empty store both give the
timeout outcome, and a present result is returned. -/
theorem wait_respects_timeout_w :
    wait_for_result (fun _ => []) "j1" 0 0 = none ∧
    wait_for_result (fun _ => []) "j1" 0 4 = none ∧
    wait_for_result (fun _ => store0) "j1" 0 4 = some rd0 :=
  ⟨(wait_respects_timeout (fun _ => []) "j1" 0 0).1 rfl,
   (wait_respects_timeout (fun _ => []) "j1" 0 4).2.1 (fun _ _ => rfl),
   (wait_respects_timeout (fun _ => store0) "j1" 0 4).2.2 rd0 (by decide)
     (by simp [get_result, Store.get, store0])⟩

/-- C6: in every result the worker stores, the error field is populated
exactly when status is not "completed": it is None on the completed
path, the executor's stderr when the return code is non-zero, and the
exception text on the error path (the KeyError text for a missing
required field, the raised message when the executor raises). -/
theorem error_field_iff_not_completed (exec : Executor) (envModel : Option String)
    (job : JobData) (store : Store) (now : Nat) :
    ∃ rd : ResultData,
      (process_job exec envModel job store now).1 =
        Store.setex store (resultKey rd.job_id) 3600 rd now ∧
      (rd.status = "completed" ↔ rd.error = none) ∧
      (∀ fp jid r, job.file_path = some fp → job.job_id = some jid →
        exec fp (job.output_dir.getD defaultOutputDir)
          (job.model.getD (envModel.getD "base")) = Except.ok r →
        rd.error = if r.returncode = 0 then none else some r.stderr) ∧
      (∀ fp jid e, job.file_path = some fp → job.job_id = some jid →
        exec fp (job.output_dir.getD defaultOutputDir)
          (job.model.getD (envModel.getD "base")) = Except.error e →
        rd.error = some e) ∧
      (job.file_path = none → rd.error = some "KeyError: file_path") := by
  cases hfp : job.file_path with
  | none =>
    refine ⟨{ job_id := job.job_id.getD "unknown", status := "error", output := none,
              error := some "KeyError: file_path", timestamp := now }, ?_, by simp, ?_, ?_,
            fun _ => rfl⟩
    · rw [process_job_of_no_file_path exec envModel job store now hfp]
    · intro fp jid r h
      exact absurd h (by simp)
    · intro fp jid e h
      exact absurd h (by simp)
  | some fp =>
    cases hid : job.job_id with
    | none =>
      refine ⟨{ job_id := "unknown", status := "error", output := none,
                error := some "KeyError: job_id", timestamp := now }, ?_, by simp, ?_, ?_, ?_⟩
      · rw [process_job_of_no_job_id exec envModel job store now fp hfp hid]
      · intro fp' jid r _ h
        exact absurd h (by simp)
      · intro fp' jid e _ h
        exact absurd h (by simp)
      · intro h; exact absurd h (by simp)
    | some jid =>
      cases hex : exec fp (job.output_dir.getD defaultOutputDir)
          (job.model.getD (envModel.getD "base")) with
      | error e =>
        refine ⟨{ job_id := jid, status := "error", output := none,
                  error := some e, timestamp := now }, ?_, by simp, ?_, ?_, ?_⟩
        · rw [process_job_of_error exec envModel job store now fp jid e hfp hid hex]
        · intro fp' jid' r hfp' hid' hex'
          obtain rfl : fp = fp' := Option.some.inj hfp'
          obtain rfl : jid = jid' := Option.some.inj hid'
          rw [hex] at hex'; exact absurd hex' (by simp)
        · intro fp' jid' e' hfp' hid' hex'
          obtain rfl : fp = fp' := Option.some.inj hfp'
          obtain rfl : jid = jid' := Option.some.inj hid'
          rw [hex] at hex'
          obtain rfl : e = e' := Except.error.inj hex'
          rfl
        · intro h; exact absurd h (by simp)
      | ok r =>
        refine ⟨{ job_id := jid
                  status := if r.returncode = 0 then "completed" else "failed"
                  output := some r.stdout
                  error := if r.returncode = 0 then none else some r.stderr
                  timestamp := now }, ?_, ?_, ?_, ?_, ?_⟩
        · rw [process_job_of_ok exec envModel job store now fp jid r hfp hid hex]
        · by_cases h0 : r.returncode = 0 <;> simp [h0]
        · intro fp' jid' r' hfp' hid' hex'
          obtain rfl : fp = fp' := Option.some.inj hfp'
          obtain rfl : jid = jid' := Option.some.inj hid'
          rw [hex] at hex'
          obtain rfl : r = r' := Except.ok.inj hex'
          rfl
        · intro fp' jid' e hfp' hid' hex'
          obtain rfl : fp = fp' := Option.some.inj hfp'
          obtain rfl : jid = jid' := Option.some.inj hid'
          rw [hex] at hex'; exact absurd hex' (by simp)
        · intro h; exact absurd h (by simp)

/-- Witness for C6: with an executor failing with return code 1 and a
diagnostic on stderr, the stored result is failed with that stderr as
its error field. -/
theorem error_field_iff_not_completed_w :
    ∃ rd : ResultData,
      (process_job execFail none job0 [] 0).1 =
        Store.setex [] (resultKey rd.job_id) 3600 rd 0 ∧
      (rd.status = "completed" ↔ rd.error = none) ∧
      (∀ fp jid r, job0.file_path = some fp → job0.job_id = some jid →
        execFail fp (job0.output_dir.getD defaultOutputDir)
          (job0.model.getD ((none : Option String).getD "base")) = Except.ok r →
        rd.error = if r.returncode = 0 then none else some r.stderr) ∧
      (∀ fp jid e, job0.file_path = some fp → job0.job_id = some jid →
        execFail fp (job0.output_dir.getD defaultOutputDir)
          (job0.model.getD ((none : Option String).getD "base")) = Except.error e →
        rd.error = some e) ∧
      (job0.file_path = none → rd.error = some "KeyError: file_path") :=
  error_field_iff_not_completed execFail none job0 [] 0

/-- C8: no job-processing error ever terminates the worker loop: without
an interrupt every iteration continues (whatever the queue holds), a
dequeue failure makes the loop sleep 5 time units and retry with the
queue untouched, and over any schedule of iterations free of interrupts
the loop never exits; a KeyboardInterrupt stops it cleanly with the
state intact. -/
theorem worker_loop_resilient (exec : Executor) (envModel : Option String)
    (deqErr : Bool) (s : WorkerState) (inputs : List StepInput) :
    (∃ s', runStep exec envModel false deqErr s = StepResult.next s') ∧
    runStep exec envModel true deqErr s = StepResult.stopped s ∧
    runStep exec envModel false true s = StepResult.next { s with now := s.now + 5 } ∧
    ((∀ i ∈ inputs, i.interrupt = false) → (runLoop exec envModel inputs s).2 = false) := by
  refine ⟨runStep_next exec envModel deqErr s, by simp [runStep], by simp [runStep], ?_⟩
  induction inputs generalizing s with
  | nil =>
    intro _
    simp [runLoop]
  | cons i is ih =>
    intro h
    have hi : i.interrupt = false := h i (List.mem_cons_self i is)
    obtain ⟨s', hs'⟩ := runStep_next exec envModel i.deqErr s
    rw [runLoop, hi, hs']
    exact ih s' (fun j hj => h j (List.mem_cons_of_mem i hj))

/-- Witness for C8: a concrete interrupt-free two-iteration schedule
leaves the loop running. -/
theorem worker_loop_resilient_w :
    (∀ i ∈ inputs0, i.interrupt = false) ∧ (runLoop exec0 none inputs0 state0).2 = false :=
  ⟨by decide,
   (worker_loop_resilient exec0 none false state0 inputs0).2.2.2 (by decide)⟩

/-- C9 counterexample: store6 holds six live results written at times
1..6, "jf" most recently; ks6, which enumerates the oldest write first,
is a permutation of the live keys and hence an order Redis KEYS is
allowed to return.  The snapshot then lists 5 results and omits "jf",
the most recently written one, which GET still retrieves — so the
listing is not the most-recently-written results. -/
theorem snapshot_misses_most_recent :
    List.Perm ks6 (liveKeys store6 10) ∧
    (list_queue_status [] store6 10 ks6).2.length = 5 ∧
    ("jf", "completed") ∉ (list_queue_status [] store6 10 ks6).2 ∧
    Store.get store6 (resultKey "jf") 10 = some (mkRd "jf" 6) := by
  refine ⟨by decide, by decide, by decide, by decide⟩

/-- C9 (amended): the status snapshot reports the exact queue depth and,
for whatever enumeration of the live result keys Redis KEYS returns,
lists at most 5 results — exactly min 5 (number of live results) when
the store holds one entry per key, as stores built by SETEX do — each
listed pair being the (job_id, status) of a live entry of the result
store.  Which 5 appear depends on the enumeration: there is no recency
guarantee. -/
theorem status_snapshot (q : List Payload) (s : Store) (now : Nat) (ks : List String)
    (hks : List.Perm ks (liveKeys s now)) :
    (list_queue_status q s now ks).1 = q.length ∧
    (list_queue_status q s now ks).2.length ≤ 5 ∧
    (∀ p ∈ (list_queue_status q s now ks).2,
      ∃ e, e ∈ s ∧ now < e.2.2 ∧ p = (e.2.1.job_id, e.2.1.status)) ∧
    ((List.map (fun e => e.1) s).Nodup →
      (list_queue_status q s now ks).2.length = min 5 (liveKeys s now).length) := by
  refine ⟨rfl, ?_, ?_, ?_⟩
  · simp only [list_queue_status]
    calc (List.filterMap _ (List.take 5 ks)).length
        ≤ (List.take 5 ks).length := List.length_filterMap_le _ _
      _ ≤ 5 := by rw [List.length_take]; omega
  · intro p hp
    simp only [list_queue_status, List.mem_filterMap] at hp
    obtain ⟨k, _, hfk⟩ := hp
    rcases hget : Store.get s k now with _ | rd
    · rw [hget] at hfk
      simp at hfk
    · rw [hget] at hfk
      obtain ⟨e, hes, hlive, herd⟩ := get_some_mem s k now rd hget
      refine ⟨e, hes, hlive, ?_⟩
      rw [herd]
      exact (Option.some.inj hfk).symm
  · intro hnd
    have hall : ∀ k ∈ List.take 5 ks,
        ∃ p, (Store.get s k now).map (fun rd => (rd.job_id, rd.status)) = some p := by
      intro k hk5
      have hk : k ∈ liveKeys s now := hks.mem_iff.mp (List.mem_of_mem_take hk5)
      obtain ⟨rd, hrd⟩ := get_isSome_of_mem_liveKeys s now k hnd hk
      exact ⟨(rd.job_id, rd.status), by rw [hrd]; rfl⟩
    simp only [list_queue_status]
    rw [length_filterMap_of_some _ (List.take 5 ks) hall, List.length_take, hks.length_eq]

/-- Witness for C9: a one-entry store with its sole live key as the
KEYS enumeration: depth 0, one listed pair, and it is the live entry's
(job_id, status). -/
theorem status_snapshot_w :
    List.Perm [resultKey "j1"] (liveKeys store0 0) ∧
    (List.map (fun e => e.1) store0).Nodup ∧
    (("j1", "completed") ∈ (list_queue_status [] store0 0 [resultKey "j1"]).2) ∧
    (∃ e, e ∈ store0 ∧ 0 < e.2.2 ∧
      (("j1", "completed") : String × String) = (e.2.1.job_id, e.2.1.status)) ∧
    (list_queue_status [] store0 0 [resultKey "j1"]).2.length =
      min 5 (liveKeys store0 0).length :=
  ⟨by decide, by decide, by decide,
   (status_snapshot [] store0 0 [resultKey "j1"] (by decide)).2.2.1
     ("j1", "completed") (by decide),
   (status_snapshot [] store0 0 [resultKey "j1"] (by decide)).2.2.2 (by decide)⟩

/-- C10: the worker requires only job_id and file_path of a descriptor:
a descriptor lacking output_dir and model is processed with the default
output directory and the configured default model substituted and its
result status is never "error" when the executor runs, whereas a
descriptor lacking job_id, or lacking file_path, takes the error path. -/
theorem required_fields_only (exec : Executor) (envModel : Option String)
    (store : Store) (now : Nat) (jid fp : String) (od m : Option String)
    (sa : Option Nat) :
    (∀ r, exec fp defaultOutputDir (envModel.getD "base") = Except.ok r →
      process_job exec envModel
          { job_id := some jid, file_path := some fp, output_dir := none,
            model := none, submitted_at := sa } store now =
        (Store.setex store (resultKey jid) 3600
          { job_id := jid
            status := if r.returncode = 0 then "completed" else "failed"
            output := some r.stdout
            error := if r.returncode = 0 then none else some r.stderr
            timestamp := now } now, decide (r.returncode = 0)) ∧
      (if r.returncode = 0 then "completed" else "failed") ≠ "error") ∧
    (∃ rd : ResultData, rd.status = "error" ∧
      process_job exec envModel
          { job_id := none, file_path := some fp, output_dir := od,
            model := m, submitted_at := sa } store now =
        (Store.setex store (resultKey "unknown") 3600 rd now, false)) ∧
    (∃ rd : ResultData, rd.status = "error" ∧
      process_job exec envModel
          { job_id := some jid, file_path := none, output_dir := od,
            model := m, submitted_at := sa } store now =
        (Store.setex store (resultKey jid) 3600 rd now, false)) := by
  refine ⟨?_, ?_, ?_⟩
  · intro r hex
    constructor
    · exact process_job_of_ok exec envModel _ store now fp jid r rfl rfl (by simpa using hex)
    · by_cases h0 : r.returncode = 0 <;> simp [h0]
  · exact ⟨{ job_id := "unknown", status := "error", output := none,
             error := some "KeyError: job_id", timestamp := now }, rfl,
           process_job_of_no_job_id exec envModel _ store now fp rfl rfl⟩
  · refine ⟨{ job_id := jid, status := "error", output := none,
              error := some "KeyError: file_path", timestamp := now }, rfl, ?_⟩
    have h := process_job_of_no_file_path exec envModel
        { job_id := some jid, file_path := none, output_dir := od,
          model := m, submitted_at := sa } store now rfl
    simpa using h

/-- Witness for C10: the always-succeeding executor at the defaults
gives a completed result for a descriptor with only the required
fields. -/
theorem required_fields_only_w :
    exec0 "a.wav" defaultOutputDir ((none : Option String).getD "base") =
      Except.ok { returncode := 0, stdout := "out", stderr := "" } ∧
    process_job exec0 none
        { job_id := some "j1", file_path := some "a.wav", output_dir := none,
          model := none, submitted_at := none } [] 0 =
      (Store.setex [] (resultKey "j1") 3600
        { job_id := "j1"
          status := if (0 : Int) = 0 then "completed" else "failed"
          output := some "out"
          error := if (0 : Int) = 0 then none else some ""
          timestamp := 0 } 0, decide ((0 : Int) = 0)) :=
  ⟨rfl,
   ((required_fields_only exec0 none [] 0 "j1" "a.wav" none none none).1
     { returncode := 0, stdout := "out", stderr := "" } rfl).1⟩

end WhisperQueue
